import Mathlib

/-!
Verification of the rayml pipeline composition and execution engine
(component graphs: build, validate, order, execute, instantiate, pickle).

The repository ships only the documentation of the engine (notebooks for
`ComponentGraph` and pipelines, the conda recipe, the Makefile), so the
engine itself is modelled from the specification: every definition below
whose doc comment starts with `Modelled from the spec:` is a faithful
shallow embedding of the behaviour the specification describes, with
machine data (feature matrices, targets, learned state) abstracted to
plain Lean types.
-/

namespace RayML

/-- Modelled from the spec: an edge reference is a tagged union of the root
feature input `X`, the root target input `y`, or the feature/target output
of a named upstream node (`"<node-name>.x"` / `"<node-name>.y"`). -/
inductive EdgeRef where
  | rootX : EdgeRef
  | rootY : EdgeRef
  | nodeX : String → EdgeRef
  | nodeY : String → EdgeRef
deriving DecidableEq

/-- The node name an edge reference points at, if any. -/
def refName : EdgeRef → Option String
  | .rootX => none
  | .rootY => none
  | .nodeX m => some m
  | .nodeY m => some m

/-- Whether an edge reference is a feature-stream reference (`X` or `.x`). -/
def isFeatureRef : EdgeRef → Bool
  | .rootX => true
  | .nodeX _ => true
  | _ => false

/-- Whether an edge reference is a target-stream reference (`y` or `.y`). -/
def isTargetRef : EdgeRef → Bool
  | .rootY => true
  | .nodeY _ => true
  | _ => false

/-- Parameter mapping for one component: parameter name to (abstract) value. -/
abbrev Params := List (String × Nat)

/-- Modelled from the spec: the parameter bundle, a mapping from node name to
a parameter mapping, applied wholesale at instantiation. -/
abbrev ParamBundle := List (String × Params)

/-- Modelled from the spec: the capability contract consumed from each
component: `fit(X, y)` producing learned state, `transform` producing the
feature output from learned state and features, a target-output function for
target-producing transformers, and `predict` for estimators.  Features are a
list of columns (`List α`), the target a single value of type `β`, learned
state of type `σ`. -/
structure ComponentImpl (α β σ : Type) where
  fitFn : List α → β → σ
  transformFn : σ → List α → List α
  targetFn : σ → List α → β → β
  predictFn : σ → List α → β

/-- Modelled from the spec: a component descriptor registers a unique name,
capability flags (feature output, target output, estimator), declared
default parameters and a factory constructing the unit of work. -/
structure ComponentDescriptor (α β σ : Type) where
  dname : String
  producesFeature : Bool
  producesTarget : Bool
  isEstimator : Bool
  defaults : Params
  factory : Params → ComponentImpl α β σ

/-- One entry of the declarative adjacency specification: node name,
component, and the ordered list of input edges. -/
abbrev NodeSpec (α β σ : Type) := String × ComponentDescriptor α β σ × List EdgeRef

/-- Modelled from the spec: the mapping form of a graph specification, a
mapping (in declaration order) from node name to component plus input edges. -/
abbrev GraphSpec (α β σ : Type) := List (NodeSpec α β σ)

/-- Modelled from the spec: a named node of a built graph, holding the
component descriptor, the ordered feature-input references and the (at most
one) target-input reference. -/
structure GraphNode (α β σ : Type) where
  name : String
  desc : ComponentDescriptor α β σ
  featureInputs : List EdgeRef
  targetInput : Option EdgeRef

/-- Modelled from the spec: a built component graph: the arena of nodes, the
cached topological `compute_order`, the identified terminus, the parameter
bundle bound by `instantiate` (none before instantiation) and the learned
states stored by `fit` (none before fitting). -/
structure ComponentGraphS (α β σ : Type) where
  nodes : List (GraphNode α β σ)
  computeOrder : List String
  terminus : String
  instParams : Option ParamBundle
  fittedStates : Option (List (String × σ))

/-- Modelled from the spec: the build-time structural error taxonomy
(unknown node reference, duplicate target edge, capability-invalid
reference, cycle, zero or multiple terminus nodes); each error carries the
offending node name(s). -/
inductive GraphStructureError where
  | duplicateNode : String → GraphStructureError
  | unknownNode : String → GraphStructureError
  | duplicateTargetEdge : String → GraphStructureError
  | invalidTargetRef : String → String → GraphStructureError
  | estimatorNotTerminal : String → GraphStructureError
  | cyclic : GraphStructureError
  | noTerminus : GraphStructureError
  | multipleTerminus : List String → GraphStructureError
deriving DecidableEq

/-- Modelled from the spec: user-visible messages identify the offending
node names and the rule violated. -/
def GraphStructureError.message : GraphStructureError → String
  | .duplicateNode n => "duplicate node name: " ++ n
  | .unknownNode m => "unknown node referenced by an edge: " ++ m
  | .duplicateTargetEdge n => "node declares more than one target input: " ++ n
  | .invalidTargetRef n m =>
      "node " ++ n ++ " references the target output of " ++ m ++
      ", which produces no target output"
  | .estimatorNotTerminal m =>
      "node " ++ m ++ " produces no feature output and so may only be the terminus"
  | .cyclic => "the given graph contains a cycle"
  | .noTerminus => "the given graph has no terminus node"
  | .multipleTerminus ns =>
      "graph has " ++ toString ns.length ++ " terminus nodes: " ++
      String.intercalate ", " ns

/-- First element of a list of options that is `some`, if any. -/
def firstSome {γ : Type} : List (Option γ) → Option γ
  | [] => none
  | none :: t => firstSome t
  | some e :: _ => some e

/-- First duplicated name of a list, if any. -/
def firstDup : List String → Option String
  | [] => none
  | n :: t => if n ∈ t then some n else firstDup t

/-- Association-list lookup by key (first match). -/
def alookup {γ : Type} : List (String × γ) → String → Option γ
  | [], _ => none
  | (a, v) :: t, k => if a = k then some v else alookup t k

/-- The declared node names of a specification, in declaration order. -/
def specNames {α β σ : Type} (spec : GraphSpec α β σ) : List String :=
  spec.map (fun e => e.1)

/-- The names a list of edges depends on (every node referenced by an edge). -/
def specDeps (es : List EdgeRef) : List String :=
  es.filterMap refName

/-- The dependency adjacency derived from a specification: each node paired
with the names referenced by its input edges. -/
def adjOf {α β σ : Type} (spec : GraphSpec α β σ) : List (String × List String) :=
  spec.map (fun e => (e.1, specDeps e.2.2))

/-- The component descriptor declared for a node name, if any. -/
def descOf {α β σ : Type} : GraphSpec α β σ → String → Option (ComponentDescriptor α β σ)
  | [], _ => none
  | (nm, d, _) :: t, m => if nm = m then some d else descOf t m

/-- Whether the named node declares a feature output. -/
def producesFeatureIn {α β σ : Type} (spec : GraphSpec α β σ) (m : String) : Bool :=
  match descOf spec m with
  | some d => d.producesFeature
  | none => false

/-- Whether the named node declares a target output. -/
def producesTargetIn {α β σ : Type} (spec : GraphSpec α β σ) (m : String) : Bool :=
  match descOf spec m with
  | some d => d.producesTarget
  | none => false

/-- Modelled from the spec: parse-time validation of one edge of node
`host`: the referenced name must be declared, a `.x` reference must target a
feature-producing node (a component with no feature output may only be
terminal), and a `.y` reference must target a target-producing node. -/
def edgeErr {α β σ : Type} (spec : GraphSpec α β σ) (names : List String)
    (host : String) : EdgeRef → Option GraphStructureError
  | .rootX => none
  | .rootY => none
  | .nodeX m =>
      if m ∈ names then
        if producesFeatureIn spec m then none
        else some (.estimatorNotTerminal m)
      else some (.unknownNode m)
  | .nodeY m =>
      if m ∈ names then
        if producesTargetIn spec m then none
        else some (.invalidTargetRef host m)
      else some (.unknownNode m)

/-- Number of target-input edges a node declares. -/
def targetRefCount (es : List EdgeRef) : Nat :=
  (es.filter isTargetRef).length

/-- Modelled from the spec: parse-time validation of one node: each edge is
validated in order, and a node may declare at most one target-input edge. -/
def nodeErr {α β σ : Type} (spec : GraphSpec α β σ) (names : List String)
    (e : NodeSpec α β σ) : Option GraphStructureError :=
  match firstSome (e.2.2.map (edgeErr spec names e.1)) with
  | some err => some err
  | none => if 2 ≤ targetRefCount e.2.2 then some (.duplicateTargetEdge e.1) else none

/-- The first parse-time validation error of a specification, scanning the
nodes in declaration order. -/
def specError {α β σ : Type} (spec : GraphSpec α β σ) : Option GraphStructureError :=
  firstSome (spec.map (nodeErr spec (specNames spec)))

/-- All dependencies of an entry already placed? -/
def readyNode (placed : List String) (p : String × List String) : Bool :=
  p.2.all (fun d => decide (d ∈ placed))

/-- Modelled from the spec: among nodes whose dependencies are all
satisfied, the scheduler breaks ties by declaration order; this extracts the
first ready entry, keeping the rest in order. -/
def extractReady (placed : List String) :
    List (String × List String) →
    Option ((String × List String) × List (String × List String))
  | [] => none
  | p :: rest =>
      if readyNode placed p then some (p, rest)
      else
        match extractReady placed rest with
        | none => none
        | some (q, rest2) => some (q, p :: rest2)

/-- Modelled from the spec: deterministic Kahn-style topological sort; fails
(returns `none`, signalling a cycle) when no valid total order exists. -/
def topoAux : Nat → List String → List (String × List String) → Option (List String)
  | 0, placed, rem => if rem.isEmpty then some placed else none
  | fuel + 1, placed, rem =>
      if rem.isEmpty then some placed
      else
        match extractReady placed rem with
        | none => none
        | some (p, rest) => topoAux fuel (placed ++ [p.1]) rest

/-- Topological sort of a dependency adjacency. -/
def topoSortNames (adj : List (String × List String)) : Option (List String) :=
  topoAux adj.length [] adj

/-- The names of the nodes consuming the output of node `m` (the nodes one
of whose input edges references `m`). -/
def consumersOf {α β σ : Type} (spec : GraphSpec α β σ) (m : String) : List String :=
  (spec.filter (fun e => decide (m ∈ specDeps e.2.2))).map (fun e => e.1)

/-- The terminus candidates: every declared node with no downstream consumer. -/
def terminiOf {α β σ : Type} (spec : GraphSpec α β σ) : List String :=
  (spec.filter (fun e => decide (consumersOf spec e.1 = []))).map (fun e => e.1)

/-- Build one graph node from a specification entry, splitting its edges
into the ordered feature-input list and the (at most one) target input. -/
def mkNode {α β σ : Type} (e : NodeSpec α β σ) : GraphNode α β σ :=
  ⟨e.1, e.2.1, e.2.2.filter isFeatureRef, (e.2.2.filter isTargetRef).head?⟩

/-- Assemble the built graph value (uninstantiated, unfitted). -/
def mkGraph {α β σ : Type} (spec : GraphSpec α β σ) (ord : List String)
    (t : String) : ComponentGraphS α β σ :=
  ⟨spec.map mkNode, ord, t, none, none⟩

/-- Modelled from the spec: `build(spec) -> Graph`.  Parses and validates
the mapping-form specification (duplicate names, unknown references,
duplicate target edges, capability-invalid references), computes the
deterministic topological order (failing with `cyclic` when none exists),
then identifies the unique terminus (failing with `noTerminus` or
`multipleTerminus` otherwise).  Any detected structural inconsistency
rejects the graph in full; no partial graph is produced. -/
def build {α β σ : Type} (spec : GraphSpec α β σ) :
    Except GraphStructureError (ComponentGraphS α β σ) :=
  match firstDup (specNames spec) with
  | some n => .error (.duplicateNode n)
  | none =>
    match specError spec with
    | some e => .error e
    | none =>
      match topoSortNames (adjOf spec) with
      | none => .error .cyclic
      | some ord =>
        match terminiOf spec with
        | [] => .error .noTerminus
        | [t] => .ok (mkGraph spec ord t)
        | t1 :: t2 :: ts => .error (.multipleTerminus (t1 :: t2 :: ts))

/-! ### Positions in the compute order -/

/-- Index of the first occurrence of a name in a list (length if absent). -/
def idxOf : List String → String → Nat
  | [], _ => 0
  | x :: t, a => if x = a then 0 else idxOf t a + 1

theorem idxOf_append_left {l₁ : List String} (l₂ : List String) {a : String}
    (h : a ∈ l₁) : idxOf (l₁ ++ l₂) a = idxOf l₁ a := by
  induction l₁ with
  | nil => cases h
  | cons x t ih =>
      by_cases hx : x = a
      · simp [idxOf, hx]
      · rcases List.mem_cons.mp h with heq | h
        · exact absurd heq.symm hx
        · simp [idxOf, hx, ih h]

theorem idxOf_lt_length {l : List String} {a : String} (h : a ∈ l) :
    idxOf l a < l.length := by
  induction l with
  | nil => cases h
  | cons x t ih =>
      by_cases hx : x = a
      · simp [idxOf, hx]
      · rcases List.mem_cons.mp h with heq | h
        · exact absurd heq.symm hx
        · simpa [idxOf, hx] using ih h

theorem length_le_idxOf_append {l₁ : List String} (l₂ : List String) {a : String}
    (h : a ∉ l₁) : l₁.length ≤ idxOf (l₁ ++ l₂) a := by
  induction l₁ with
  | nil => simp
  | cons x t ih =>
      have hx : x ≠ a := fun hxa => h (hxa ▸ List.mem_cons_self x t)
      have ht : a ∉ t := fun hat => h (List.mem_cons_of_mem x hat)
      simpa [idxOf, hx] using ih ht

theorem idxOf_append_cons_self {l₁ : List String} (l₂ : List String) {a : String}
    (h : a ∉ l₁) : idxOf (l₁ ++ a :: l₂) a = l₁.length := by
  induction l₁ with
  | nil => simp [idxOf]
  | cons x t ih =>
      have hx : x ≠ a := fun hxa => h (hxa ▸ List.mem_cons_self x t)
      have ht : a ∉ t := fun hat => h (List.mem_cons_of_mem x hat)
      simp [idxOf, hx, ih ht]

/-- A name whose index in `l₁ ++ l₂` is below the length of `l₁` lies in `l₁`. -/
theorem mem_left_of_idxOf_lt {l₁ l₂ : List String} {a : String}
    (hlt : idxOf (l₁ ++ l₂) a < l₁.length) : a ∈ l₁ := by
  by_cases h : a ∈ l₁
  · exact h
  · exact absurd hlt (Nat.not_lt.mpr (length_le_idxOf_append l₂ h))

/-! ### Association-list lemmas -/

theorem alookup_append_of_mem_keys {γ : Type} {l₁ : List (String × γ)}
    (l₂ : List (String × γ)) {k : String} (h : k ∈ l₁.map Prod.fst) :
    alookup (l₁ ++ l₂) k = alookup l₁ k := by
  induction l₁ with
  | nil => cases h
  | cons p t ih =>
      by_cases hp : p.1 = k
      · simp [alookup, hp]
      · rcases List.mem_cons.mp h with heq | h
        · exact absurd heq.symm hp
        · simp [alookup, hp, ih h]

theorem alookup_append_of_not_mem_keys {γ : Type} {l₁ : List (String × γ)}
    (l₂ : List (String × γ)) {k : String} (h : k ∉ l₁.map Prod.fst) :
    alookup (l₁ ++ l₂) k = alookup l₂ k := by
  induction l₁ with
  | nil => rfl
  | cons p t ih =>
      have hp : p.1 ≠ k := fun hpk => h (List.mem_map.mpr ⟨p, List.mem_cons_self p t, hpk⟩)
      have ht : k ∉ t.map Prod.fst := fun hkt => h (List.mem_cons_of_mem _ hkt)
      simp [alookup, hp, ih ht]

theorem alookup_isSome_of_mem_keys {γ : Type} {l : List (String × γ)} {k : String}
    (h : k ∈ l.map Prod.fst) : (alookup l k).isSome := by
  induction l with
  | nil => cases h
  | cons p t ih =>
      by_cases hp : p.1 = k
      · simp [alookup, hp]
      · rcases List.mem_cons.mp h with heq | h
        · exact absurd heq.symm hp
        · simpa [alookup, hp] using ih h

/-! ### Soundness of the topological sort -/

theorem readyNode_spec {placed : List String} {p : String × List String}
    (h : readyNode placed p = true) : ∀ d ∈ p.2, d ∈ placed := by
  intro d hd
  have := List.all_eq_true.mp h d hd
  simpa using this

theorem extractReady_perm {placed : List String} :
    ∀ {rem : List (String × List String)} {q rest},
      extractReady placed rem = some (q, rest) → rem.Perm (q :: rest) := by
  intro rem
  induction rem with
  | nil => intro q rest h; cases h
  | cons p t ih =>
      intro q rest h
      by_cases hr : readyNode placed p = true
      · simp [extractReady, hr] at h
        obtain ⟨hq, hrest⟩ := h
        subst hq; subst hrest
        exact List.Perm.refl _
      · simp [extractReady, hr] at h
        rcases hrec : extractReady placed t with _ | ⟨q2, rest2⟩
        · rw [hrec] at h; cases h
        · rw [hrec] at h
          simp at h
          obtain ⟨hq, hrest⟩ := h
          subst hq; subst hrest
          exact (List.Perm.cons p (ih hrec)).trans (List.Perm.swap _ _ _)

theorem extractReady_ready {placed : List String} :
    ∀ {rem : List (String × List String)} {q rest},
      extractReady placed rem = some (q, rest) → readyNode placed q = true := by
  intro rem
  induction rem with
  | nil => intro q rest h; cases h
  | cons p t ih =>
      intro q rest h
      by_cases hr : readyNode placed p = true
      · simp [extractReady, hr] at h
        obtain ⟨hq, _⟩ := h
        subst hq; exact hr
      · simp [extractReady, hr] at h
        rcases hrec : extractReady placed t with _ | ⟨q2, rest2⟩
        · rw [hrec] at h; cases h
        · rw [hrec] at h
          simp at h
          obtain ⟨hq, _⟩ := h
          subst hq; exact ih hrec

/-- Main invariant of the scheduler: a successful run extends `placed` by a
permutation of the remaining node names, and every remaining node ends up
strictly after all of its dependencies. -/
theorem topoAux_sound :
    ∀ (fuel : Nat) (placed : List String) (rem : List (String × List String))
      (out : List String),
      topoAux fuel placed rem = some out →
      (placed ++ rem.map Prod.fst).Nodup →
      (∀ p ∈ rem, ∀ d ∈ p.2, d ∈ placed ∨ d ∈ rem.map Prod.fst) →
      (∃ rest, out = placed ++ rest ∧ (rem.map Prod.fst).Perm rest) ∧
        (∀ p ∈ rem, ∀ d ∈ p.2, idxOf out d < idxOf out p.1) := by
  intro fuel
  induction fuel with
  | zero =>
      intro placed rem out h hnd hcl
      by_cases hre : rem.isEmpty
      · have hrem : rem = [] := List.isEmpty_iff.mp hre
        subst hrem
        simp [topoAux] at h
        subst h
        exact ⟨⟨[], by simp, by simp⟩, by simp⟩
      · simp [topoAux, hre] at h
  | succ fuel ih =>
      intro placed rem out h hnd hcl
      by_cases hre : rem.isEmpty
      · have hrem : rem = [] := List.isEmpty_iff.mp hre
        subst hrem
        simp [topoAux] at h
        subst h
        exact ⟨⟨[], by simp, by simp⟩, by simp⟩
      · rcases hex : extractReady placed rem with _ | ⟨q, rest⟩
        · simp [topoAux, hre, hex] at h
        · have h' : topoAux fuel (placed ++ [q.1]) rest = some out := by
            simpa [topoAux, hre, hex] using h
          have hperm : rem.Perm (q :: rest) := extractReady_perm hex
          have hpermN : (rem.map Prod.fst).Perm (q.1 :: rest.map Prod.fst) :=
            hperm.map Prod.fst
          have hq1mem : q.1 ∈ rem.map Prod.fst := hpermN.mem_iff.mpr (List.mem_cons_self _ _)
          have hassoc : (placed ++ [q.1]) ++ rest.map Prod.fst =
              placed ++ (q.1 :: rest.map Prod.fst) := by
            rw [List.append_assoc]; rfl
          have hnd' : ((placed ++ [q.1]) ++ rest.map Prod.fst).Nodup := by
            rw [hassoc]
            exact (List.Perm.append_left placed hpermN).nodup hnd
          have hcl' : ∀ p ∈ rest, ∀ d ∈ p.2,
              d ∈ placed ++ [q.1] ∨ d ∈ rest.map Prod.fst := by
            intro p hp d hd
            have hpmem : p ∈ rem := hperm.mem_iff.mpr (List.mem_cons_of_mem _ hp)
            rcases hcl p hpmem d hd with hdp | hdr
            · exact Or.inl (List.mem_append_left _ hdp)
            · rcases List.mem_cons.mp (hpermN.mem_iff.mp hdr) with hdq | hdrest
              · exact Or.inl (List.mem_append_right _ (hdq ▸ List.mem_singleton_self _))
              · exact Or.inr hdrest
          obtain ⟨⟨rest', hout, hpr⟩, hidx⟩ := ih (placed ++ [q.1]) rest out h' hnd' hcl'
          have hout2 : out = placed ++ (q.1 :: rest') := by
            rw [hout, List.append_assoc]; rfl
          have hq1notplaced : q.1 ∉ placed := by
            have hdisj := List.disjoint_of_nodup_append hnd
            exact fun hq1p => hdisj hq1p hq1mem
          refine ⟨⟨q.1 :: rest', hout2, ?_⟩, ?_⟩
          · exact hpermN.trans (List.Perm.cons q.1 hpr)
          · intro p hp d hd
            rcases List.mem_cons.mp (hperm.mem_iff.mp hp) with hpq | hprest
            · subst hpq
              have hdplaced : d ∈ placed :=
                readyNode_spec (extractReady_ready hex) d hd
              have hd_idx : idxOf out d < placed.length := by
                rw [hout2, idxOf_append_left _ hdplaced]
                exact idxOf_lt_length hdplaced
              have hp_idx : placed.length ≤ idxOf out p.1 := by
                rw [hout2]
                exact length_le_idxOf_append _ hq1notplaced
              exact Nat.lt_of_lt_of_le hd_idx hp_idx
            · exact hidx p hprest d hd

/-- Soundness of `topoSortNames`, specialized to a full run. -/
theorem topoSortNames_sound {adj : List (String × List String)} {ord : List String}
    (h : topoSortNames adj = some ord)
    (hnd : (adj.map Prod.fst).Nodup)
    (hcl : ∀ p ∈ adj, ∀ d ∈ p.2, d ∈ adj.map Prod.fst) :
    (adj.map Prod.fst).Perm ord ∧
      ∀ p ∈ adj, ∀ d ∈ p.2, idxOf ord d < idxOf ord p.1 := by
  have hcl' : ∀ p ∈ adj, ∀ d ∈ p.2, d ∈ ([] : List String) ∨ d ∈ adj.map Prod.fst :=
    fun p hp d hd => Or.inr (hcl p hp d hd)
  obtain ⟨⟨rest, hout, hperm⟩, hidx⟩ :=
    topoAux_sound adj.length [] adj ord h (by simpa using hnd) hcl'
  simp at hout
  subst hout
  exact ⟨hperm, hidx⟩

/-! ### Instantiation and execution -/

/-- Modelled from the spec: instantiation errors (the bundle names an
unknown node). -/
inductive PipelineError where
  | unknownNodeParams : String → PipelineError
deriving DecidableEq

/-- Modelled from the spec: execution-ordering errors: invoking execution
before `instantiate`, invoking `transform`/`predict` before `fit`, and
invoking `transform`/`predict` on a graph whose terminus lacks the
capability. -/
inductive ExecError where
  | notInstantiated : ExecError
  | notYetFitted : ExecError
  | invalidTerminusTransform : ExecError
  | invalidTerminusPredict : ExecError
deriving DecidableEq

/-- Modelled from the spec: the not-yet-fitted ordering error names the
graph as not fitted. -/
def ExecError.message : ExecError → String
  | .notInstantiated => "this component graph has not been instantiated yet"
  | .notYetFitted =>
      "this component graph is not fitted yet: fit must be called before predict or transform"
  | .invalidTerminusTransform => "the final component is not a transformer"
  | .invalidTerminusPredict => "the final component is not an estimator"

/-- First key of a parameter bundle that is not a node of the graph. -/
def badKey {α β σ : Type} (nodes : List (GraphNode α β σ)) (p : ParamBundle) : Option String :=
  firstSome (p.map (fun q =>
    if q.1 ∈ nodes.map GraphNode.name then none else some q.1))

/-- Modelled from the spec: `instantiate(graph, parameters)` binds the
parameter bundle wholesale (components are reconstructed from it at
execution time, falling back to declared defaults), clearing any learned
state; it fails when the bundle names an unknown node. -/
def instantiate {α β σ : Type} (g : ComponentGraphS α β σ) (p : ParamBundle) :
    Except PipelineError (ComponentGraphS α β σ) :=
  match badKey g.nodes p with
  | some n => .error (.unknownNodeParams n)
  | none => .ok { g with instParams := some p, fittedStates := none }

/-- The node of a graph with the given name, if any. -/
def findNode {α β σ : Type} : List (GraphNode α β σ) → String → Option (GraphNode α β σ)
  | [], _ => none
  | node :: t, n => if node.name = n then some node else findNode t n

/-- The node of a graph with the given name, if any. -/
def nodeOf {α β σ : Type} (g : ComponentGraphS α β σ) (n : String) : Option (GraphNode α β σ) :=
  findNode g.nodes n

/-- The constructed unit of work for a node of an instantiated graph: the
factory applied to the bound parameters (bundle entry first, declared
defaults as fallback). -/
def implOf {α β σ : Type} (g : ComponentGraphS α β σ) (n : String) : Option (ComponentImpl α β σ) :=
  match g.instParams, nodeOf g n with
  | some pb, some node => some (node.desc.factory ((alookup pb n).getD [] ++ node.desc.defaults))
  | _, _ => none

/-- Per-execution bookkeeping: the per-node feature-output cache, the
per-node target-output cache, the learned states, the log of component
invocations (in order), and the resolved feature input of every node. -/
structure ExecSt (α β σ : Type) where
  featC : List (String × List α)
  targC : List (String × β)
  states : List (String × σ)
  invokeLog : List String
  inputLog : List (String × List α)

/-- The empty execution state. -/
def initSt {α β σ : Type} : ExecSt α β σ := ⟨[], [], [], [], []⟩

/-- Modelled from the spec: resolving one feature-input reference: the root
feature input `X` or the cached feature output of a named upstream node. -/
def resolveFeat {α : Type} (featC : List (String × List α)) (X : List α) : EdgeRef → List α
  | .rootX => X
  | .nodeX m => (alookup featC m).getD []
  | _ => []

/-- Modelled from the spec: column-wise concatenation of the referenced
feature outputs, in declaration order. -/
def concatCols {α : Type} (featC : List (String × List α)) (X : List α) : List EdgeRef → List α
  | [] => []
  | r :: rs => resolveFeat featC X r ++ concatCols featC X rs

/-- Modelled from the spec: resolving the (at most one) target input: a
named upstream target output, defaulting to the root target `y` when
unspecified. -/
def resolveTarg {β : Type} (targC : List (String × β)) (y : β) : Option EdgeRef → β
  | some (.nodeY m) => (alookup targC m).getD y
  | _ => y

/-- Modelled from the spec: one step of the execution engine walking the
compute order: resolve the feature and target inputs from the caches,
obtain the learned state of the node (freshly fit during `fit`, looked up
during `transform`/`predict` — the parameter `getS`), produce the feature
output and (for target-producing components) the target output, and cache
everything.  Every output is computed exactly once per walk and reused
through the caches. -/
def walkStep {α β σ : Type} (g : ComponentGraphS α β σ)
    (getS : String → ComponentImpl α β σ → List α → β → σ)
    (X : List α) (y : β) (st : ExecSt α β σ) (n : String) : ExecSt α β σ :=
  match nodeOf g n, implOf g n with
  | some node, some impl =>
      let feats := concatCols st.featC X node.featureInputs
      let targ := resolveTarg st.targC y node.targetInput
      let s := getS n impl feats targ
      let fOut := impl.transformFn s feats
      let tOut := if node.desc.producesTarget then impl.targetFn s feats targ else targ
      ⟨st.featC ++ [(n, fOut)], st.targC ++ [(n, tOut)], st.states ++ [(n, s)],
        st.invokeLog ++ [n], st.inputLog ++ [(n, feats)]⟩
  | _, _ => st

/-- Modelled from the spec: the execution engine walks `compute_order`
strictly sequentially, threading the caches. -/
def execWalk {α β σ : Type} (g : ComponentGraphS α β σ)
    (getS : String → ComponentImpl α β σ → List α → β → σ)
    (X : List α) (y : β) : ExecSt α β σ :=
  g.computeOrder.foldl (walkStep g getS X y) initSt

/-- Modelled from the spec: the `fit` walk: each node is fit on its
resolved inputs (two-phase fit-then-transform). -/
def execFit {α β σ : Type} (g : ComponentGraphS α β σ) (X : List α) (y : β) : ExecSt α β σ :=
  execWalk g (fun _ impl feats targ => impl.fitFn feats targ) X y

/-- Modelled from the spec: the read-only walk used by `transform` and
`predict`: learned states are looked up, never re-fit. -/
def execRead {α β σ : Type} [Inhabited σ] (g : ComponentGraphS α β σ)
    (sts : List (String × σ)) (X : List α) (y : β) : ExecSt α β σ :=
  execWalk g (fun n _ _ _ => (alookup sts n).getD default) X y

/-- Modelled from the spec: `fit(graph, X, y)` walks the compute order
fitting every node and stores the learned states on the graph; it fails
when the graph is not instantiated. -/
def fitCG {α β σ : Type} (g : ComponentGraphS α β σ) (X : List α) (y : β) :
    Except ExecError (ComponentGraphS α β σ) :=
  match g.instParams with
  | none => .error .notInstantiated
  | some _ => .ok { g with fittedStates := some (execFit g X y).states }

/-- The descriptor of the terminus node. -/
def terminusDesc {α β σ : Type} (g : ComponentGraphS α β σ) :
    Option (ComponentDescriptor α β σ) :=
  (nodeOf g g.terminus).map GraphNode.desc

/-- Whether `transform` is valid: the terminus produces a feature output. -/
def transformOK {α β σ : Type} (g : ComponentGraphS α β σ) : Bool :=
  match terminusDesc g with
  | some d => d.producesFeature
  | none => false

/-- Whether `predict` is valid: the terminus is an estimator. -/
def predictOK {α β σ : Type} (g : ComponentGraphS α β σ) : Bool :=
  match terminusDesc g with
  | some d => d.isEstimator
  | none => false

/-- Modelled from the spec: `transform(graph, X, y)`: valid only on an
instantiated, fitted graph whose terminus is a transformer; never calls
`fit` on any node; returns the terminus feature and target outputs together
with the (unchanged) graph. -/
def transformCG {α β σ : Type} [Inhabited σ] (g : ComponentGraphS α β σ)
    (X : List α) (y : β) :
    Except ExecError ((List α × β) × ComponentGraphS α β σ) :=
  match g.instParams with
  | none => .error .notInstantiated
  | some _ =>
    match g.fittedStates with
    | none => .error .notYetFitted
    | some sts =>
      if transformOK g then
        let st := execRead g sts X y
        .ok (((alookup st.featC g.terminus).getD [],
              (alookup st.targC g.terminus).getD y), g)
      else .error .invalidTerminusTransform

/-- Modelled from the spec: `predict(graph, X)`: valid only on an
instantiated, fitted graph whose terminus is an estimator; never calls
`fit` on any node; the terminus prediction is computed from its resolved
feature input and stored learned state. -/
def predictCG {α β σ : Type} [Inhabited σ] [Inhabited β] (g : ComponentGraphS α β σ)
    (X : List α) : Except ExecError β :=
  match g.instParams with
  | none => .error .notInstantiated
  | some _ =>
    match g.fittedStates with
    | none => .error .notYetFitted
    | some sts =>
      if predictOK g then
        let st := execRead g sts X (default : β)
        match implOf g g.terminus with
        | some impl =>
            .ok (impl.predictFn ((alookup sts g.terminus).getD default)
              ((alookup st.inputLog g.terminus).getD []))
        | none => .error .notInstantiated
      else .error .invalidTerminusPredict

/-! ### The execution-walk invariant -/

/-- The declared feature-input references of a node of a built graph. -/
def featRefs {α β σ : Type} (g : ComponentGraphS α β σ) (n : String) : List EdgeRef :=
  match nodeOf g n with
  | some node => node.featureInputs
  | none => []

/-- The structural facts about a graph that the execution engine relies on:
the compute order has no duplicates, every scheduled name resolves to a node
and a constructed component, and every feature-input reference points at a
node scheduled strictly earlier. -/
structure GoodGraph {α β σ : Type} (g : ComponentGraphS α β σ) : Prop where
  nodup : g.computeOrder.Nodup
  hasNode : ∀ n ∈ g.computeOrder, (nodeOf g n).isSome
  hasImpl : ∀ n ∈ g.computeOrder, (implOf g n).isSome
  depsEarlier : ∀ n ∈ g.computeOrder, ∀ m, EdgeRef.nodeX m ∈ featRefs g n →
    m ∈ g.computeOrder ∧ idxOf g.computeOrder m < idxOf g.computeOrder n

/-- Feature resolution only reads the cache at the referenced names. -/
theorem concatCols_congr {α : Type} {featC featC2 : List (String × List α)}
    {X : List α} :
    ∀ {refs : List EdgeRef},
      (∀ m, EdgeRef.nodeX m ∈ refs → alookup featC2 m = alookup featC m) →
      concatCols featC2 X refs = concatCols featC X refs := by
  intro refs
  induction refs with
  | nil => intro _; rfl
  | cons r rs ih =>
      intro h
      have htail : concatCols featC2 X rs = concatCols featC X rs :=
        ih (fun m hm => h m (List.mem_cons_of_mem r hm))
      cases r with
      | rootX => simp [concatCols, resolveFeat, htail]
      | rootY => simp [concatCols, resolveFeat, htail]
      | nodeX m => simp [concatCols, resolveFeat, htail, h m (List.mem_cons_self _ _)]
      | nodeY m => simp [concatCols, resolveFeat, htail]

/-- The invariant carried along the walk over a processed prefix `done`:
the caches and logs have exactly the processed nodes as keys, invocations
happened once per processed node in order, and every recorded feature input
is the declared concatenation resolved against the current cache. -/
def WalkInv {α β σ : Type} (g : ComponentGraphS α β σ) (X : List α)
    (done : List String) (st : ExecSt α β σ) : Prop :=
  st.featC.map Prod.fst = done ∧
  st.targC.map Prod.fst = done ∧
  st.inputLog.map Prod.fst = done ∧
  st.invokeLog = done ∧
  ∀ n ∈ done, alookup st.inputLog n = some (concatCols st.featC X (featRefs g n))

theorem walkStep_inv {α β σ : Type} {g : ComponentGraphS α β σ}
    {getS : String → ComponentImpl α β σ → List α → β → σ}
    {X : List α} {y : β} {done : List String} {n : String} {l : List String}
    {st : ExecSt α β σ}
    (hgood : GoodGraph g) (hord : g.computeOrder = done ++ n :: l)
    (hinv : WalkInv g X done st) :
    WalkInv g X (done ++ [n]) (walkStep g getS X y st n) := by
  obtain ⟨hfeat, htarg, hinp, hlog, hcorr⟩ := hinv
  have hnmem : n ∈ g.computeOrder := by
    rw [hord]; exact List.mem_append_right _ (List.mem_cons_self _ _)
  have hnode := hgood.hasNode n hnmem
  have himpl := hgood.hasImpl n hnmem
  rcases hn : nodeOf g n with _ | node
  · rw [hn] at hnode; cases hnode
  rcases hi : implOf g n with _ | impl
  · rw [hi] at himpl; cases himpl
  have hndone : n ∉ done := by
    have : (done ++ n :: l).Nodup := hord ▸ hgood.nodup
    have hdisj := List.disjoint_of_nodup_append this
    exact fun hmem => hdisj hmem (List.mem_cons_self _ _)
  have hidxn : idxOf g.computeOrder n = done.length := by
    rw [hord]; exact idxOf_append_cons_self _ hndone
  -- a node's references, and the references of already-processed nodes,
  -- are all already in the processed prefix
  have hrefdone : ∀ k, k ∈ done ∨ k = n → ∀ m, EdgeRef.nodeX m ∈ featRefs g k →
      m ∈ done := by
    intro k hk m hm
    have hkmem : k ∈ g.computeOrder := by
      rcases hk with hk | hk
      · rw [hord]; exact List.mem_append_left _ hk
      · exact hk ▸ hnmem
    obtain ⟨hmmem, hmidx⟩ := hgood.depsEarlier k hkmem m hm
    have hkidx : idxOf g.computeOrder k ≤ done.length := by
      rcases hk with hk | hk
      · rw [hord, idxOf_append_left _ hk]
        exact Nat.le_of_lt (idxOf_lt_length hk)
      · rw [hk, hidxn]
    have hmlt : idxOf g.computeOrder m < done.length := Nat.lt_of_lt_of_le hmidx hkidx
    have hmys : m ∈ done := by
      rw [hord] at hmlt
      exact mem_left_of_idxOf_lt hmlt
    exact hmys
  have hstep : walkStep g getS X y st n =
      (let feats := concatCols st.featC X node.featureInputs
       let targ := resolveTarg st.targC y node.targetInput
       let s := getS n impl feats targ
       let fOut := impl.transformFn s feats
       let tOut := if node.desc.producesTarget then impl.targetFn s feats targ else targ
       ⟨st.featC ++ [(n, fOut)], st.targC ++ [(n, tOut)], st.states ++ [(n, s)],
         st.invokeLog ++ [n], st.inputLog ++ [(n, feats)]⟩) := by
    unfold walkStep
    rw [hn, hi]
  rw [hstep]
  refine ⟨by simpa using hfeat, by simpa using htarg, by simpa using hinp,
    by simpa using hlog, ?_⟩
  intro k hk
  have hlookup_preserve : ∀ m ∈ done,
      alookup (st.featC ++ [(n, impl.transformFn
        (getS n impl (concatCols st.featC X node.featureInputs)
          (resolveTarg st.targC y node.targetInput))
        (concatCols st.featC X node.featureInputs))]) m = alookup st.featC m := by
    intro m hm
    exact alookup_append_of_mem_keys _ (hfeat ▸ hm)
  rcases List.mem_append.mp hk with hk | hk
  · -- an already-processed node: its recorded input is unchanged, and the
    -- cache extension does not touch the names it references
    have hinp_pres : alookup (st.inputLog ++
        [(n, concatCols st.featC X node.featureInputs)]) k = alookup st.inputLog k :=
      alookup_append_of_mem_keys _ (hinp ▸ hk)
    rw [hinp_pres, hcorr k hk]
    have hcong : concatCols (st.featC ++ [(n, impl.transformFn
        (getS n impl (concatCols st.featC X node.featureInputs)
          (resolveTarg st.targC y node.targetInput))
        (concatCols st.featC X node.featureInputs))]) X (featRefs g k) =
        concatCols st.featC X (featRefs g k) := by
      refine concatCols_congr ?_
      intro m hm
      exact hlookup_preserve m (hrefdone k (Or.inl hk) m hm)
    rw [hcong]
  · -- the newly-processed node
    have hkn : k = n := by simpa using hk
    subst hkn
    have hinp_new : alookup (st.inputLog ++
        [(k, concatCols st.featC X node.featureInputs)]) k =
        some (concatCols st.featC X node.featureInputs) := by
      rw [alookup_append_of_not_mem_keys _ (hinp ▸ hndone)]
      simp [alookup]
    rw [hinp_new]
    have hrefsk : featRefs g k = node.featureInputs := by
      unfold featRefs; rw [hn]
    have hcong : concatCols (st.featC ++ [(k, impl.transformFn
        (getS k impl (concatCols st.featC X node.featureInputs)
          (resolveTarg st.targC y node.targetInput))
        (concatCols st.featC X node.featureInputs))]) X (featRefs g k) =
        concatCols st.featC X (featRefs g k) := by
      refine concatCols_congr ?_
      intro m hm
      exact hlookup_preserve m (hrefdone k (Or.inr rfl) m hm)
    rw [hcong, hrefsk]

theorem execFold_inv {α β σ : Type} {g : ComponentGraphS α β σ}
    {getS : String → ComponentImpl α β σ → List α → β → σ}
    {X : List α} {y : β} (hgood : GoodGraph g) :
    ∀ (l done : List String) (st : ExecSt α β σ),
      g.computeOrder = done ++ l → WalkInv g X done st →
      WalkInv g X (done ++ l) (l.foldl (walkStep g getS X y) st) := by
  intro l
  induction l with
  | nil =>
      intro done st hord hinv
      simpa using hinv
  | cons n l ih =>
      intro done st hord hinv
      have hord' : g.computeOrder = (done ++ [n]) ++ l := by
        rw [hord, List.append_assoc]; rfl
      have hinv' := @walkStep_inv α β σ g getS X y done n l st hgood hord hinv
      have := ih (done ++ [n]) (walkStep g getS X y st n) hord' hinv'
      simpa [List.append_assoc] using this

/-- The walk establishes the invariant over the whole compute order. -/
theorem execWalk_spec {α β σ : Type} {g : ComponentGraphS α β σ}
    {getS : String → ComponentImpl α β σ → List α → β → σ}
    {X : List α} {y : β} (hgood : GoodGraph g) :
    WalkInv g X g.computeOrder (execWalk g getS X y) := by
  have hinit : WalkInv g X [] (initSt : ExecSt α β σ) := by
    refine ⟨rfl, rfl, rfl, rfl, ?_⟩
    intro n hn; cases hn
  have := @execFold_inv α β σ g getS X y hgood g.computeOrder [] initSt
    (by simp) hinit
  simpa [execWalk] using this

/-! ### Consequences of a successful build -/

theorem firstDup_eq_none {l : List String} (h : firstDup l = none) : l.Nodup := by
  induction l with
  | nil => exact List.nodup_nil
  | cons n t ih =>
      by_cases hn : n ∈ t
      · simp [firstDup, hn] at h
      · simp [firstDup, hn] at h
        exact List.nodup_cons.mpr ⟨hn, ih h⟩

theorem firstSome_map_eq_none {γ δ : Type} {f : δ → Option γ} :
    ∀ {l : List δ}, firstSome (l.map f) = none → ∀ x ∈ l, f x = none := by
  intro l
  induction l with
  | nil => intro _ x hx; cases hx
  | cons a t ih =>
      intro h x hx
      rcases hfa : f a with _ | v
      · rw [List.map_cons, hfa] at h
        rcases List.mem_cons.mp hx with heq | hx
        · exact heq ▸ hfa
        · exact ih (by simpa [firstSome] using h) x hx
      · rw [List.map_cons, hfa] at h
        simp [firstSome] at h

theorem nodeErr_none_edges {α β σ : Type} {spec : GraphSpec α β σ} {names : List String}
    {e : NodeSpec α β σ} (h : nodeErr spec names e = none) :
    ∀ r ∈ e.2.2, edgeErr spec names e.1 r = none := by
  intro r hr
  unfold nodeErr at h
  rcases hfs : firstSome (e.2.2.map (edgeErr spec names e.1)) with _ | err
  · exact firstSome_map_eq_none hfs r hr
  · rw [hfs] at h; cases h

theorem nodeErr_none_target_count {α β σ : Type} {spec : GraphSpec α β σ}
    {names : List String} {e : NodeSpec α β σ} (h : nodeErr spec names e = none) :
    targetRefCount e.2.2 ≤ 1 := by
  unfold nodeErr at h
  rcases hfs : firstSome (e.2.2.map (edgeErr spec names e.1)) with _ | err
  · rw [hfs] at h
    by_cases hc : 2 ≤ targetRefCount e.2.2
    · simp [hc] at h
    · omega
  · rw [hfs] at h; cases h

theorem specError_none_edges {α β σ : Type} {spec : GraphSpec α β σ}
    (h : specError spec = none) :
    ∀ e ∈ spec, ∀ r ∈ e.2.2, edgeErr spec (specNames spec) e.1 r = none := by
  intro e he
  exact nodeErr_none_edges (firstSome_map_eq_none h e he)

theorem edgeErr_nodeX_none {α β σ : Type} {spec : GraphSpec α β σ} {names : List String}
    {host m : String} (h : edgeErr spec names host (EdgeRef.nodeX m) = none) :
    m ∈ names ∧ producesFeatureIn spec m = true := by
  by_cases hm : m ∈ names
  · refine ⟨hm, ?_⟩
    by_cases hp : producesFeatureIn spec m
    · exact hp
    · simp [edgeErr, hm, hp] at h
  · simp [edgeErr, hm] at h

theorem edgeErr_nodeY_none {α β σ : Type} {spec : GraphSpec α β σ} {names : List String}
    {host m : String} (h : edgeErr spec names host (EdgeRef.nodeY m) = none) :
    m ∈ names ∧ producesTargetIn spec m = true := by
  by_cases hm : m ∈ names
  · refine ⟨hm, ?_⟩
    by_cases hp : producesTargetIn spec m
    · exact hp
    · simp [edgeErr, hm, hp] at h
  · simp [edgeErr, hm] at h

theorem edgeErr_refName_mem {α β σ : Type} {spec : GraphSpec α β σ} {names : List String}
    {host : String} {r : EdgeRef} {m : String}
    (h : edgeErr spec names host r = none) (hm : refName r = some m) : m ∈ names := by
  cases r with
  | rootX => cases hm
  | rootY => cases hm
  | nodeX k =>
      have hk : k = m := by simpa [refName] using hm
      exact hk ▸ (edgeErr_nodeX_none h).1
  | nodeY k =>
      have hk : k = m := by simpa [refName] using hm
      exact hk ▸ (edgeErr_nodeY_none h).1

theorem adjOf_map_fst {α β σ : Type} (spec : GraphSpec α β σ) :
    (adjOf spec).map Prod.fst = specNames spec := by
  simp [adjOf, specNames]

/-- Parse-time validation makes the dependency relation closed over the
declared names. -/
theorem specError_none_closure {α β σ : Type} {spec : GraphSpec α β σ}
    (h : specError spec = none) :
    ∀ p ∈ adjOf spec, ∀ d ∈ p.2, d ∈ (adjOf spec).map Prod.fst := by
  intro p hp d hd
  rw [adjOf_map_fst]
  obtain ⟨e, he, hpe⟩ := List.mem_map.mp hp
  subst hpe
  obtain ⟨r, hr, hrm⟩ := List.mem_filterMap.mp hd
  exact edgeErr_refName_mem (specError_none_edges h e he r hr) hrm

theorem build_ok_inv {α β σ : Type} {spec : GraphSpec α β σ}
    {g : ComponentGraphS α β σ} (h : build spec = .ok g) :
    firstDup (specNames spec) = none ∧ specError spec = none ∧
      ∃ ord t, topoSortNames (adjOf spec) = some ord ∧ terminiOf spec = [t] ∧
        g = mkGraph spec ord t := by
  unfold build at h
  rcases hdup : firstDup (specNames spec) with _ | n
  · rw [hdup] at h
    rcases herr : specError spec with _ | e
    · rw [herr] at h
      rcases hts : topoSortNames (adjOf spec) with _ | ord
      · rw [hts] at h; cases h
      · rw [hts] at h
        rcases hterm : terminiOf spec with _ | ⟨t, rest⟩
        · rw [hterm] at h; cases h
        · rcases rest with _ | ⟨t2, ts⟩
          · rw [hterm] at h
            refine ⟨rfl, rfl, ord, t, rfl, rfl, ?_⟩
            cases h
            rfl
          · rw [hterm] at h; cases h
    · rw [herr] at h; cases h
  · rw [hdup] at h; cases h

/-- Lookup of a specification entry by node name (first match). -/
def findSpec {α β σ : Type} : GraphSpec α β σ → String → Option (NodeSpec α β σ)
  | [], _ => none
  | e :: t, n => if e.1 = n then some e else findSpec t n

theorem findNode_map_mkNode {α β σ : Type} :
    ∀ (spec : GraphSpec α β σ) (n : String),
      findNode (spec.map mkNode) n = (findSpec spec n).map mkNode := by
  intro spec
  induction spec with
  | nil => intro n; rfl
  | cons e t ih =>
      intro n
      by_cases he : e.1 = n
      · simp [findNode, findSpec, mkNode, he]
      · simp [findNode, findSpec, mkNode, he, ih n]

theorem findSpec_mem {α β σ : Type} {spec : GraphSpec α β σ} {n : String}
    {e : NodeSpec α β σ} (h : findSpec spec n = some e) : e ∈ spec ∧ e.1 = n := by
  induction spec with
  | nil => cases h
  | cons a t ih =>
      by_cases ha : a.1 = n
      · simp [findSpec, ha] at h
        subst h
        exact ⟨List.mem_cons_self _ _, ha⟩
      · simp [findSpec, ha] at h
        obtain ⟨hmem, heq⟩ := ih h
        exact ⟨List.mem_cons_of_mem _ hmem, heq⟩

theorem findSpec_isSome {α β σ : Type} {spec : GraphSpec α β σ} {n : String}
    (h : n ∈ specNames spec) : (findSpec spec n).isSome := by
  induction spec with
  | nil => cases h
  | cons e t ih =>
      by_cases he : e.1 = n
      · simp [findSpec, he]
      · rcases List.mem_cons.mp h with heq | hmem
        · exact absurd heq.symm he
        · simpa [findSpec, he] using ih hmem

/-- A successfully built and instantiated graph satisfies all the facts the
execution engine relies on. -/
theorem build_instantiate_good {α β σ : Type} {spec : GraphSpec α β σ}
    {g0 g : ComponentGraphS α β σ} {p : ParamBundle}
    (hb : build spec = .ok g0) (hi : instantiate g0 p = .ok g) : GoodGraph g := by
  obtain ⟨hdup, herr, ord, t, hts, hterm, hg0⟩ := build_ok_inv hb
  have hginv : g = { g0 with instParams := some p, fittedStates := none } := by
    unfold instantiate at hi
    rcases hbk : badKey g0.nodes p with _ | n
    · rw [hbk] at hi; cases hi; rfl
    · rw [hbk] at hi; cases hi
  have hnodes : g.nodes = spec.map mkNode := by rw [hginv, hg0]; rfl
  have hord : g.computeOrder = ord := by rw [hginv, hg0]; rfl
  have hip : g.instParams = some p := by rw [hginv]
  have hnamesnd : (specNames spec).Nodup := firstDup_eq_none hdup
  have hclosure := specError_none_closure herr
  have hsound := topoSortNames_sound hts (by rw [adjOf_map_fst]; exact hnamesnd) (by
    intro q hq d hd
    exact hclosure q hq d hd)
  have hperm : (specNames spec).Perm ord := by
    have := hsound.1
    rwa [adjOf_map_fst] at this
  have hmemiff : ∀ n, n ∈ ord ↔ n ∈ specNames spec := fun n => (hperm.mem_iff).symm
  have hnodeOf : ∀ n ∈ g.computeOrder, (nodeOf g n).isSome := by
    intro n hn
    rw [hord] at hn
    have hnames : n ∈ specNames spec := (hmemiff n).mp hn
    unfold nodeOf
    rw [hnodes, findNode_map_mkNode]
    have := findSpec_isSome hnames
    rcases hfs : findSpec spec n with _ | e
    · rw [hfs] at this; cases this
    · simp
  refine ⟨?_, hnodeOf, ?_, ?_⟩
  · rw [hord]; exact hperm.nodup hnamesnd
  · intro n hn
    have := hnodeOf n hn
    unfold implOf
    rw [hip]
    rcases hno : nodeOf g n with _ | node
    · rw [hno] at this; cases this
    · simp
  · intro n hn m hm
    rw [hord] at hn ⊢
    have hnames : n ∈ specNames spec := (hmemiff n).mp hn
    have hfsome := findSpec_isSome hnames
    rcases hfs : findSpec spec n with _ | e
    · rw [hfs] at hfsome; cases hfsome
    obtain ⟨hemem, hename⟩ := findSpec_mem hfs
    have hfeats : featRefs g n = e.2.2.filter isFeatureRef := by
      unfold featRefs nodeOf
      rw [hnodes, findNode_map_mkNode, hfs]
      rfl
    rw [hfeats] at hm
    have hmedge : EdgeRef.nodeX m ∈ e.2.2 := List.mem_of_mem_filter hm
    have hmdep : m ∈ specDeps e.2.2 :=
      List.mem_filterMap.mpr ⟨EdgeRef.nodeX m, hmedge, rfl⟩
    have hadj : (e.1, specDeps e.2.2) ∈ adjOf spec := by
      exact List.mem_map.mpr ⟨e, hemem, rfl⟩
    have hmnames : m ∈ specNames spec := by
      have := hclosure _ hadj m hmdep
      rwa [adjOf_map_fst] at this
    refine ⟨(hmemiff m).mpr hmnames, ?_⟩
    have := hsound.2 _ hadj m hmdep
    simpa [hename] using this

/-! ### Occurrence counting -/

/-- Number of occurrences of a name in a list. -/
def countOcc (l : List String) (a : String) : Nat :=
  (l.filter (fun x => decide (x = a))).length

theorem countOcc_eq_zero {l : List String} {a : String} (h : a ∉ l) :
    countOcc l a = 0 := by
  induction l with
  | nil => rfl
  | cons x t ih =>
      have hx : x ≠ a := fun hxa => h (hxa ▸ List.mem_cons_self x t)
      have ht : a ∉ t := fun hat => h (List.mem_cons_of_mem x hat)
      simpa [countOcc, hx] using ih ht

theorem countOcc_eq_one {l : List String} {a : String} (hnd : l.Nodup) (hmem : a ∈ l) :
    countOcc l a = 1 := by
  induction l with
  | nil => cases hmem
  | cons x t ih =>
      obtain ⟨hx, hndt⟩ := List.nodup_cons.mp hnd
      rcases List.mem_cons.mp hmem with heq | hmem
      · subst heq
        have hzero : countOcc t a = 0 := countOcc_eq_zero hx
        simpa [countOcc] using hzero
      · have hx2 : x ≠ a := fun hxa => hx (hxa ▸ hmem)
        simpa [countOcc, hx2] using ih hndt hmem

/-- A node with at least one consumer is referenced by some entry. -/
theorem consumers_nonempty_mem {α β σ : Type} {spec : GraphSpec α β σ} {m : String}
    (h : 1 ≤ (consumersOf spec m).length) :
    ∃ e ∈ spec, m ∈ specDeps e.2.2 := by
  unfold consumersOf at h
  rcases hfl : spec.filter (fun e => decide (m ∈ specDeps e.2.2)) with _ | ⟨e, t⟩
  · rw [hfl] at h; simp at h
  · have he : e ∈ spec.filter (fun x => decide (m ∈ specDeps x.2.2)) := by
      rw [hfl]; exact List.mem_cons_self _ _
    have := List.mem_filter.mp he
    exact ⟨e, this.1, by simpa using this.2⟩

/-- A referenced node name is part of the compute order of a built graph. -/
theorem referenced_mem_order {α β σ : Type} {spec : GraphSpec α β σ}
    {g0 g : ComponentGraphS α β σ} {p : ParamBundle} {m : String}
    (hb : build spec = .ok g0) (hi : instantiate g0 p = .ok g)
    (href : ∃ e ∈ spec, m ∈ specDeps e.2.2) : m ∈ g.computeOrder := by
  obtain ⟨hdup, herr, ord, t, hts, hterm, hg0⟩ := build_ok_inv hb
  obtain ⟨e, he, hm⟩ := href
  have hadj : (e.1, specDeps e.2.2) ∈ adjOf spec := List.mem_map.mpr ⟨e, he, rfl⟩
  have hmnames : m ∈ specNames spec := by
    have := specError_none_closure herr _ hadj m hm
    rwa [adjOf_map_fst] at this
  have hnamesnd : (specNames spec).Nodup := firstDup_eq_none hdup
  have hsound := topoSortNames_sound hts (by rw [adjOf_map_fst]; exact hnamesnd)
    (specError_none_closure herr)
  have hperm : (specNames spec).Perm ord := by
    have := hsound.1
    rwa [adjOf_map_fst] at this
  have hordg : g.computeOrder = ord := by
    unfold instantiate at hi
    rcases hbk : badKey g0.nodes p with _ | n
    · rw [hbk] at hi; cases hi; rw [hg0]; rfl
    · rw [hbk] at hi; cases hi
  rw [hordg]
  exact hperm.mem_iff.mp hmnames

/-! ### Concrete components and graphs used as evaluation witnesses -/

/-- A stub transformer: learns its fit inputs, shifts every feature column
by its `shift` parameter. -/
def transformerDesc (nm : String) (k : Nat) : ComponentDescriptor Nat Nat (List Nat × Nat) :=
  ⟨nm, true, false, false, [("shift", k)],
    fun ps =>
      ⟨fun feats targ => (feats, targ),
        fun _ feats => feats.map (fun c => c + (alookup ps "shift").getD 0),
        fun _ _ targ => targ,
        fun _ _ => 0⟩⟩

/-- A stub estimator: no feature output, predicts the target it was fit on. -/
def estimatorDesc (nm : String) : ComponentDescriptor Nat Nat (List Nat × Nat) :=
  ⟨nm, false, false, true, [],
    fun _ =>
      ⟨fun feats targ => (feats, targ),
        fun _ feats => feats,
        fun _ _ targ => targ,
        fun s _ => s.2⟩⟩

/-- The Imputer / One Hot Encoder / Random Forest example graph of the
specification. -/
def exSpec : GraphSpec Nat Nat (List Nat × Nat) :=
  [("My Imputer", transformerDesc "Imputer" 10, [.rootX, .rootY]),
   ("OHE", transformerDesc "One Hot Encoder" 100, [.rootX, .rootY]),
   ("RF Classifier", estimatorDesc "Random Forest Classifier",
     [.nodeX "My Imputer", .nodeX "OHE", .rootY])]

/-- The built example graph. -/
def exGraph : ComponentGraphS Nat Nat (List Nat × Nat) :=
  mkGraph exSpec ["My Imputer", "OHE", "RF Classifier"] "RF Classifier"

/-- The example graph instantiated with the empty parameter bundle. -/
def exInst : ComponentGraphS Nat Nat (List Nat × Nat) :=
  { exGraph with instParams := some [], fittedStates := none }

/-- A diamond-shaped graph: a shared source feeding two transformers that
both feed the final estimator. -/
def dSpec : GraphSpec Nat Nat (List Nat × Nat) :=
  [("Source", transformerDesc "Imputer" 1, [.rootX, .rootY]),
   ("A", transformerDesc "Scaler" 2, [.nodeX "Source", .rootY]),
   ("B", transformerDesc "Selector" 3, [.nodeX "Source", .rootY]),
   ("C", estimatorDesc "Final Estimator", [.nodeX "A", .nodeX "B", .rootY])]

/-- The built diamond graph. -/
def dGraph : ComponentGraphS Nat Nat (List Nat × Nat) :=
  mkGraph dSpec ["Source", "A", "B", "C"] "C"

/-- The diamond graph instantiated with the empty parameter bundle. -/
def dInst : ComponentGraphS Nat Nat (List Nat × Nat) :=
  { dGraph with instParams := some [], fittedStates := none }

/-! ### The claims -/

/-- C1: for every specification accepted by `build` (it is then acyclic and
single-terminus), the produced `compute_order` places every node strictly
after every node referenced by its input edges. -/
theorem compute_order_respects_dependencies {α β σ : Type} {spec : GraphSpec α β σ}
    {g : ComponentGraphS α β σ} {n : String} {ds : List String} {d : String}
    (hb : build spec = .ok g) (hmem : (n, ds) ∈ adjOf spec) (hd : d ∈ ds) :
    idxOf g.computeOrder d < idxOf g.computeOrder n := by
  obtain ⟨hdup, herr, ord, t, hts, hterm, hg⟩ := build_ok_inv hb
  have hord : g.computeOrder = ord := by rw [hg]; rfl
  have hnamesnd : (specNames spec).Nodup := firstDup_eq_none hdup
  have hsound := topoSortNames_sound hts (by rw [adjOf_map_fst]; exact hnamesnd)
    (specError_none_closure herr)
  rw [hord]
  exact hsound.2 (n, ds) hmem d hd

/-- C1 witness: the Imputer / OHE / RF example, where the Random Forest
node must come strictly after the Imputer it references. -/
theorem compute_order_respects_dependencies_witness :
    build exSpec = .ok exGraph ∧
      idxOf exGraph.computeOrder "My Imputer" < idxOf exGraph.computeOrder "RF Classifier" :=
  ⟨rfl, @compute_order_respects_dependencies Nat Nat (List Nat × Nat) exSpec exGraph
    "RF Classifier" ["My Imputer", "OHE"] "My Imputer" rfl (by decide) (by decide)⟩

/-- C2: during any single execution walk (`fit`, `transform` or `predict`
all walk with `execWalk`), every scheduled node's recorded feature input is
the column-wise concatenation, in declaration order, of the outputs its
feature-input references point at (root `X` or the cached upstream feature
outputs). -/
theorem feature_input_is_declared_concat {α β σ : Type} {spec : GraphSpec α β σ}
    {g0 g : ComponentGraphS α β σ} {p : ParamBundle}
    {getS : String → ComponentImpl α β σ → List α → β → σ}
    {X : List α} {y : β} {n : String}
    (hb : build spec = .ok g0) (hi : instantiate g0 p = .ok g)
    (hn : n ∈ g.computeOrder) :
    alookup (execWalk g getS X y).inputLog n =
      some (concatCols (execWalk g getS X y).featC X (featRefs g n)) := by
  have hgood := build_instantiate_good hb hi
  have hinv := @execWalk_spec α β σ g getS X y hgood
  exact hinv.2.2.2.2 n hn

/-- C2 witness: in the Imputer / OHE / RF example, the Random Forest
feature input is exactly the Imputer output columns followed by the OHE
output columns. -/
theorem feature_input_is_declared_concat_witness :
    alookup (execFit exInst [1, 2] 5).featC "My Imputer" = some [11, 12] ∧
    alookup (execFit exInst [1, 2] 5).featC "OHE" = some [101, 102] ∧
    alookup (execFit exInst [1, 2] 5).inputLog "RF Classifier" =
      some ([11, 12] ++ [101, 102]) ∧
    alookup (execFit exInst [1, 2] 5).inputLog "RF Classifier" =
      some (concatCols (execFit exInst [1, 2] 5).featC [1, 2]
        (featRefs exInst "RF Classifier")) :=
  ⟨rfl, rfl, rfl,
    @feature_input_is_declared_concat Nat Nat (List Nat × Nat) exSpec exGraph exInst []
      (fun _ impl feats targ => impl.fitFn feats targ) [1, 2] 5 "RF Classifier"
      rfl rfl (by decide)⟩

/-- C3: in any single execution walk over a built graph, a node referenced
by two or more downstream consumers is nevertheless computed exactly once
(its cached output is reused by every consumer). -/
theorem shared_node_computed_once {α β σ : Type} {spec : GraphSpec α β σ}
    {g0 g : ComponentGraphS α β σ} {p : ParamBundle}
    {getS : String → ComponentImpl α β σ → List α → β → σ}
    {X : List α} {y : β} {m : String}
    (hb : build spec = .ok g0) (hi : instantiate g0 p = .ok g)
    (hcons : 2 ≤ (consumersOf spec m).length) :
    countOcc (execWalk g getS X y).invokeLog m = 1 := by
  have hgood := build_instantiate_good hb hi
  have hinv := @execWalk_spec α β σ g getS X y hgood
  have hlog : (execWalk g getS X y).invokeLog = g.computeOrder := hinv.2.2.2.1
  have hmem : m ∈ g.computeOrder :=
    referenced_mem_order hb hi (consumers_nonempty_mem (Nat.le_of_succ_le hcons))
  rw [hlog]
  exact countOcc_eq_one hgood.nodup hmem

/-- C3 witness: in the diamond graph the shared source, consumed by both
`A` and `B`, is invoked exactly once during `fit`. -/
theorem shared_node_computed_once_witness :
    (execFit dInst [7] 3).invokeLog = ["Source", "A", "B", "C"] ∧
      countOcc (execFit dInst [7] 3).invokeLog "Source" = 1 :=
  ⟨rfl, @shared_node_computed_once Nat Nat (List Nat × Nat) dSpec dGraph dInst []
    (fun _ impl feats targ => impl.fitFn feats targ) [7] 3 "Source"
    rfl rfl (by decide)⟩

/-! ### Cycles in the dependency relation -/

/-- Direct dependency: `a` has an input edge referencing `b`. -/
def depOn (adj : List (String × List String)) (a b : String) : Prop :=
  ∃ ds, (a, ds) ∈ adj ∧ b ∈ ds

/-- The edge-induced dependency relation contains a cycle. -/
def hasCycle (adj : List (String × List String)) : Prop :=
  ∃ n, Relation.TransGen (depOn adj) n n

/-- C4 (amended): for every specification that passes parse-time reference
validation and whose dependency relation admits a topological order, two or
more consumerless nodes make `build` fail with the multi-terminus error
carrying exactly the offending node names. -/
theorem multi_terminus_rejected {α β σ : Type} {spec : GraphSpec α β σ}
    (hdup : firstDup (specNames spec) = none) (hval : specError spec = none)
    (hord : (topoSortNames (adjOf spec)).isSome = true)
    (ht : 2 ≤ (terminiOf spec).length) :
    build spec = .error (.multipleTerminus (terminiOf spec)) := by
  rcases hts : topoSortNames (adjOf spec) with _ | ord
  · rw [hts] at hord; simp at hord
  · rcases hterm : terminiOf spec with _ | ⟨t1, rest⟩
    · rw [hterm] at ht; simp at ht
    · rcases rest with _ | ⟨t2, ts⟩
      · rw [hterm] at ht; simp at ht
      · simp only [build, hdup, hval, hts, hterm]

/-- C4 counterexample: a specification with two consumerless nodes that
also contains a cycle fails with the cycle error, not the multi-terminus
error (the scheduler checks for cycles before identifying the terminus). -/
def cSpecC4 : GraphSpec Nat Nat (List Nat × Nat) :=
  [("A", transformerDesc "T1" 1, [.nodeX "B", .rootY]),
   ("B", transformerDesc "T2" 2, [.nodeX "A", .rootY]),
   ("C", transformerDesc "T3" 3, [.rootX, .rootY]),
   ("D", transformerDesc "T4" 4, [.rootX, .rootY])]

/-- C4 counterexample: `cSpecC4` has two terminus candidates (`C`, `D`)
yet `build` fails with `cyclic`, not with a multi-terminus error. -/
theorem multi_terminus_counterexample :
    2 ≤ (terminiOf cSpecC4).length ∧ build cSpecC4 = .error .cyclic ∧
      GraphStructureError.cyclic ≠ .multipleTerminus (terminiOf cSpecC4) :=
  ⟨by decide, rfl, by decide⟩

/-- The two-terminus example of the documentation: an Imputer feeding both
a Random Forest and an Elastic Net classifier. -/
def tSpec : GraphSpec Nat Nat (List Nat × Nat) :=
  [("My Imputer", transformerDesc "Imputer" 10, [.rootX, .rootY]),
   ("RF Classifier", estimatorDesc "Random Forest Classifier",
     [.nodeX "My Imputer", .rootY]),
   ("EN Classifier", estimatorDesc "Elastic Net Classifier",
     [.nodeX "My Imputer", .rootY])]

/-- C4 witness: the documented two-classifier example is rejected with the
multi-terminus error naming both classifiers. -/
theorem multi_terminus_rejected_witness :
    build tSpec = .error (.multipleTerminus (terminiOf tSpec)) ∧
      terminiOf tSpec = ["RF Classifier", "EN Classifier"] :=
  ⟨@multi_terminus_rejected Nat Nat (List Nat × Nat) tSpec rfl rfl (by decide) (by decide),
    by decide⟩

/-- C5 (amended): for every specification that passes parse-time reference
validation, a cycle in the edge-induced dependency relation makes `build`
fail with the `cyclic` structural error. -/
theorem cyclic_spec_rejected {α β σ : Type} {spec : GraphSpec α β σ}
    (hdup : firstDup (specNames spec) = none) (hval : specError spec = none)
    (hcyc : hasCycle (adjOf spec)) :
    build spec = .error .cyclic := by
  rcases hts : topoSortNames (adjOf spec) with _ | ord
  · simp only [build, hdup, hval, hts]
  · exfalso
    have hnd : ((adjOf spec).map Prod.fst).Nodup := by
      rw [adjOf_map_fst]; exact firstDup_eq_none hdup
    have hsound := topoSortNames_sound hts hnd (specError_none_closure hval)
    obtain ⟨n, htg⟩ := hcyc
    have hlt : ∀ b, Relation.TransGen (depOn (adjOf spec)) n b →
        idxOf ord b < idxOf ord n := by
      intro b h
      induction h with
      | single hstep =>
          obtain ⟨ds, hmem, hb⟩ := hstep
          exact hsound.2 (_, ds) hmem _ hb
      | tail hab hbc ih =>
          obtain ⟨ds, hmem, hb⟩ := hbc
          exact Nat.lt_trans (hsound.2 (_, ds) hmem _ hb) ih
  -- a cycle at `n` would give `idxOf ord n < idxOf ord n`
    exact absurd (hlt n htg) (Nat.lt_irrefl _)

/-- A minimal valid cyclic specification: two transformers consuming each
other. -/
def cycSpec : GraphSpec Nat Nat (List Nat × Nat) :=
  [("A", transformerDesc "T1" 1, [.nodeX "B", .rootY]),
   ("B", transformerDesc "T2" 2, [.nodeX "A", .rootY])]

/-- C5 witness: the two-node cycle is rejected with the cyclic error. -/
theorem cyclic_spec_rejected_witness :
    build cycSpec = .error .cyclic :=
  @cyclic_spec_rejected Nat Nat (List Nat × Nat) cycSpec rfl rfl
    ⟨"A", Relation.TransGen.tail
      (Relation.TransGen.single
        (show depOn (adjOf cycSpec) "A" "B" from ⟨["B"], by decide, by decide⟩))
      (show depOn (adjOf cycSpec) "B" "A" from ⟨["A"], by decide, by decide⟩)⟩

/-- C5 counterexample: a specification whose dependency relation contains a
cycle but which also references an unknown node; parse-time validation runs
first, so `build` fails with `unknownNode`, not with the cycle error. -/
def cSpecC5 : GraphSpec Nat Nat (List Nat × Nat) :=
  [("A", transformerDesc "T1" 1, [.nodeX "B", .rootY]),
   ("B", transformerDesc "T2" 2, [.nodeX "A", .rootY]),
   ("C", transformerDesc "T3" 3, [.nodeX "D", .rootY])]

/-- C5 counterexample: `cSpecC5` contains a cycle yet `build` fails with a
structural error that does not indicate a cycle. -/
theorem cyclic_spec_counterexample :
    hasCycle (adjOf cSpecC5) ∧ build cSpecC5 = .error (.unknownNode "D") ∧
      GraphStructureError.unknownNode "D" ≠ .cyclic :=
  ⟨⟨"A", Relation.TransGen.tail
      (Relation.TransGen.single
        (show depOn (adjOf cSpecC5) "A" "B" from ⟨["B"], by decide, by decide⟩))
      (show depOn (adjOf cSpecC5) "B" "A" from ⟨["A"], by decide, by decide⟩)⟩,
    rfl, by decide⟩

/-- C6: a component with no feature output (estimator-only capability) that
is referenced through a `.x` edge by another node makes `build` fail with a
structural error: such components may only be the terminus. -/
theorem estimator_only_must_be_terminal {α β σ : Type} {spec : GraphSpec α β σ}
    {m c : String} {dm cd : ComponentDescriptor α β σ} {ces : List EdgeRef}
    (hdesc : descOf spec m = some dm) (hflag : dm.producesFeature = false)
    (hcons : (c, cd, ces) ∈ spec) (href : EdgeRef.nodeX m ∈ ces) :
    ∃ e, build spec = .error e := by
  rcases hbr : build spec with e | g
  · exact ⟨e, rfl⟩
  · exfalso
    obtain ⟨hdup, herr, _⟩ := build_ok_inv hbr
    have hedge := specError_none_edges herr (c, cd, ces) hcons (EdgeRef.nodeX m) href
    have hprod := (edgeErr_nodeX_none hedge).2
    simp [producesFeatureIn, hdesc, hflag] at hprod

/-- The documented estimator-as-intermediate failure: `Estimator1` has no
feature output yet `B` consumes `A.x`. -/
def c6Spec : GraphSpec Nat Nat (List Nat × Nat) :=
  [("A", estimatorDesc "Estimator1", [.rootX, .rootY]),
   ("B", estimatorDesc "Estimator2", [.nodeX "A", .rootY])]

/-- C6 witness: building the documented example fails, specifically with
the estimator-not-terminal error naming `A`. -/
theorem estimator_only_must_be_terminal_witness :
    (∃ e, build c6Spec = .error e) ∧
      build c6Spec = .error (.estimatorNotTerminal "A") :=
  ⟨@estimator_only_must_be_terminal Nat Nat (List Nat × Nat) c6Spec "A" "B"
      (estimatorDesc "Estimator1") (estimatorDesc "Estimator2") [.nodeX "A", .rootY]
      rfl rfl (List.mem_cons_of_mem _ (List.mem_cons_self _ _)) (by decide),
    rfl⟩

/-- C7: calling `predict` on a freshly built and instantiated graph, before
any `fit`, fails with the not-yet-fitted ordering error (whose message
names the graph as not fitted); no learned state exists, so no intermediate
node was fit. -/
theorem predict_before_fit {α β σ : Type} [Inhabited σ] [Inhabited β]
    {spec : GraphSpec α β σ} {p : ParamBundle} {g0 g : ComponentGraphS α β σ}
    {X : List α}
    (_hb : build spec = .ok g0) (hi : instantiate g0 p = .ok g) :
    predictCG g X = .error .notYetFitted ∧ g.fittedStates = none ∧
      ExecError.message .notYetFitted =
        "this component graph is not fitted yet: fit must be called before predict or transform" := by
  have hginv : g = { g0 with instParams := some p, fittedStates := none } := by
    unfold instantiate at hi
    rcases hbk : badKey g0.nodes p with _ | n
    · rw [hbk] at hi; cases hi; rfl
    · rw [hbk] at hi; cases hi
  subst hginv
  exact ⟨rfl, rfl, rfl⟩

/-- C7 witness: `predict` before `fit` on the instantiated example graph. -/
theorem predict_before_fit_witness :
    predictCG exInst [1, 2] = .error .notYetFitted ∧ exInst.fittedStates = none ∧
      ExecError.message .notYetFitted =
        "this component graph is not fitted yet: fit must be called before predict or transform" :=
  predict_before_fit (show build exSpec = .ok exGraph from rfl)
    (show instantiate exGraph [] = .ok exInst from rfl)

/-- C8: `transform` on a fitted graph mutates nothing: a successful call
returns the graph unchanged, and repeating the call with identical input
returns the identical result. -/
theorem transform_idempotent {α β σ : Type} [Inhabited σ]
    {g g2 : ComponentGraphS α β σ} {X : List α} {y : β} {out : List α × β}
    (h : transformCG g X y = .ok (out, g2)) :
    g2 = g ∧ transformCG g2 X y = .ok (out, g2) := by
  rcases hip : g.instParams with _ | pb
  · have hred : transformCG g X y = .error .notInstantiated := by
      unfold transformCG; rw [hip]
    rw [hred] at h; cases h
  · rcases hfs : g.fittedStates with _ | sts
    · have hred : transformCG g X y = .error .notYetFitted := by
        unfold transformCG; rw [hip, hfs]
      rw [hred] at h; cases h
    · have hif : transformCG g X y =
          (if transformOK g = true then
            Except.ok (((alookup (execRead g sts X y).featC g.terminus).getD [],
              (alookup (execRead g sts X y).targC g.terminus).getD y), g)
          else Except.error ExecError.invalidTerminusTransform) := by
        unfold transformCG; rw [hip, hfs]
      by_cases htk : transformOK g = true
      · have hred : transformCG g X y =
            .ok (((alookup (execRead g sts X y).featC g.terminus).getD [],
              (alookup (execRead g sts X y).targC g.terminus).getD y), g) := by
          rw [hif, if_pos htk]
        rw [hred] at h
        have h3 : (((alookup (execRead g sts X y).featC g.terminus).getD [],
            (alookup (execRead g sts X y).targC g.terminus).getD y), g) = (out, g2) :=
          Except.ok.inj h
        have hg2 : g2 = g := (congrArg Prod.snd h3).symm
        have hout : out = ((alookup (execRead g sts X y).featC g.terminus).getD [],
            (alookup (execRead g sts X y).targC g.terminus).getD y) :=
          (congrArg Prod.fst h3).symm
        subst hg2
        refine ⟨rfl, ?_⟩
        rw [hred, hout]
      · have hred : transformCG g X y = .error .invalidTerminusTransform := by
          rw [hif, if_neg htk]
        rw [hred] at h; cases h

/-- A two-transformer chain whose terminus is a transformer. -/
def trSpec : GraphSpec Nat Nat (List Nat × Nat) :=
  [("T1", transformerDesc "Imputer" 10, [.rootX, .rootY]),
   ("T2", transformerDesc "One Hot Encoder" 100, [.nodeX "T1", .rootY])]

/-- The built transformer chain. -/
def trGraph : ComponentGraphS Nat Nat (List Nat × Nat) :=
  mkGraph trSpec ["T1", "T2"] "T2"

/-- The transformer chain instantiated with the empty bundle. -/
def trInst : ComponentGraphS Nat Nat (List Nat × Nat) :=
  { trGraph with instParams := some [], fittedStates := none }

/-- The transformer chain after `fit` on `X = [1]`, `y = 3`. -/
def trFit : ComponentGraphS Nat Nat (List Nat × Nat) :=
  { trInst with fittedStates := some (execFit trInst [1] 3).states }

/-- C8 witness: fit then transform on the chain; the repeated call returns
the identical output and the graph value is unchanged. -/
theorem transform_idempotent_witness :
    fitCG trInst [1] 3 = .ok trFit ∧
      transformCG trFit [1] 3 = .ok (([111], 3), trFit) ∧
      (trFit = trFit ∧ transformCG trFit [1] 3 = .ok (([111], 3), trFit)) :=
  ⟨rfl, rfl, transform_idempotent (show transformCG trFit [1] 3 = .ok (([111], 3), trFit) from rfl)⟩

/-- C9: re-instantiating an already-instantiated graph with the same
parameter bundle succeeds and returns the same graph; no rebuild is needed
and the bundle is simply bound wholesale again. -/
theorem instantiate_idempotent {α β σ : Type} {g0 g : ComponentGraphS α β σ}
    {p : ParamBundle} (hi : instantiate g0 p = .ok g) :
    instantiate g p = .ok g := by
  unfold instantiate at hi ⊢
  rcases hbk : badKey g0.nodes p with _ | n
  · rw [hbk] at hi
    cases hi
    have hbk2 : badKey ({ g0 with instParams := some p, fittedStates := none } :
        ComponentGraphS α β σ).nodes p = none := hbk
    rw [hbk2]
  · rw [hbk] at hi; cases hi

/-- C9 witness: re-instantiating the instantiated example graph. -/
theorem instantiate_idempotent_witness :
    instantiate exGraph [] = .ok exInst ∧ instantiate exInst [] = .ok exInst :=
  ⟨rfl, instantiate_idempotent (show instantiate exGraph [] = .ok exInst from rfl)⟩

/-! ### Pipelines and pickle serialization -/

/-- Modelled from the spec: a pipeline instance wraps a component graph
(plus an optional custom name); trained and untrained pipelines differ only
in the stored learned state. -/
structure PipelineS (α β σ : Type) where
  plName : Option String
  plGraph : ComponentGraphS α β σ

/-- The serialized form of one graph node: pickle stores the component by
its registered class name together with the node wiring. -/
structure PickledNode where
  pnName : String
  pnDesc : String
  pnFeatureInputs : List EdgeRef
  pnTargetInput : Option EdgeRef
deriving DecidableEq

/-- Modelled from the spec: the pickled object hierarchy of a pipeline:
plain data only — node wiring with component class names, the compute
order, the terminus, the bound parameters and the learned state. -/
structure PickledPipeline (σ : Type) where
  pkName : Option String
  pkNodes : List PickledNode
  pkOrder : List String
  pkTerminus : String
  pkParams : Option ParamBundle
  pkFitted : Option (List (String × σ))
deriving DecidableEq

/-- A component registry, resolving a registered class name back to its
descriptor (the counterpart of pickle resolving classes by qualified name). -/
abbrev Registry (α β σ : Type) := List (String × ComponentDescriptor α β σ)

/-- Serialize one node. -/
def pickleNode {α β σ : Type} (node : GraphNode α β σ) : PickledNode :=
  ⟨node.name, node.desc.dname, node.featureInputs, node.targetInput⟩

/-- Modelled from the spec: serializing a pipeline with pickle flattens it
into the plain-data object hierarchy. -/
def pickleDump {α β σ : Type} (p : PipelineS α β σ) : PickledPipeline σ :=
  ⟨p.plName, p.plGraph.nodes.map pickleNode, p.plGraph.computeOrder,
    p.plGraph.terminus, p.plGraph.instParams, p.plGraph.fittedStates⟩

/-- Deserialize one node, resolving its component class via the registry. -/
def unpickleNode {α β σ : Type} (reg : Registry α β σ) (pn : PickledNode) :
    Option (GraphNode α β σ) :=
  match alookup reg pn.pnDesc with
  | some d => some ⟨pn.pnName, d, pn.pnFeatureInputs, pn.pnTargetInput⟩
  | none => none

/-- Deserialize a node list (failing if any class name is unregistered). -/
def unpickleNodes {α β σ : Type} (reg : Registry α β σ) :
    List PickledNode → Option (List (GraphNode α β σ))
  | [] => some []
  | pn :: t =>
      match unpickleNode reg pn, unpickleNodes reg t with
      | some n, some ns => some (n :: ns)
      | _, _ => none

/-- Modelled from the spec: deserializing a pickled pipeline reconstructs
the object hierarchy, resolving component classes by registered name. -/
def pickleLoad {α β σ : Type} (reg : Registry α β σ) (pk : PickledPipeline σ) :
    Option (PipelineS α β σ) :=
  match unpickleNodes reg pk.pkNodes with
  | some ns =>
      some ⟨pk.pkName, ⟨ns, pk.pkOrder, pk.pkTerminus, pk.pkParams, pk.pkFitted⟩⟩
  | none => none

/-- Modelled from the spec: pipeline equality (`==`) compares the public
data of the two pipelines: structure, parameters, name and learned state. -/
def pipelineEq {α β σ : Type} [DecidableEq σ] (p q : PipelineS α β σ) : Bool :=
  decide (pickleDump p = pickleDump q)

theorem unpickleNodes_map {α β σ : Type} {reg : Registry α β σ} :
    ∀ {nodes : List (GraphNode α β σ)},
      (∀ node ∈ nodes, alookup reg node.desc.dname = some node.desc) →
      unpickleNodes reg (nodes.map pickleNode) = some nodes := by
  intro nodes
  induction nodes with
  | nil => intro _; rfl
  | cons node t ih =>
      intro hreg
      have hhead := hreg node (List.mem_cons_self _ _)
      have htail := ih (fun k hk => hreg k (List.mem_cons_of_mem _ hk))
      simp only [List.map_cons, unpickleNodes, unpickleNode, pickleNode, hhead, htail]

/-- C10: pickling a pipeline (trained or untrained) and unpickling it over
a registry that faithfully resolves its component class names yields the
identical pipeline value: it compares equal to the original and behaves
identically under `fit`. -/
theorem pipeline_pickle_roundtrip {α β σ : Type} [DecidableEq σ]
    {reg : Registry α β σ} {p : PipelineS α β σ} {X : List α} {y : β}
    (hreg : ∀ node ∈ p.plGraph.nodes, alookup reg node.desc.dname = some node.desc) :
    pickleLoad reg (pickleDump p) = some p ∧
      pipelineEq ((pickleLoad reg (pickleDump p)).getD p) p = true ∧
      fitCG (((pickleLoad reg (pickleDump p)).getD p).plGraph) X y =
        fitCG p.plGraph X y := by
  have h1 : pickleLoad reg (pickleDump p) = some p := by
    unfold pickleLoad pickleDump
    rw [unpickleNodes_map hreg]
  refine ⟨h1, ?_, ?_⟩
  · rw [h1]
    simp [pipelineEq]
  · rw [h1]
    rfl

/-- The component registry for the pickle witness. -/
def exRegistry : Registry Nat Nat (List Nat × Nat) :=
  [("Imputer", transformerDesc "Imputer" 10),
   ("One Hot Encoder", transformerDesc "One Hot Encoder" 100)]

/-- A trained pipeline over the fitted transformer chain. -/
def exPipeline : PipelineS Nat Nat (List Nat × Nat) :=
  ⟨some "trained example", trFit⟩

/-- C10 witness: the trained example pipeline round-trips through pickle
and still fits identically. -/
theorem pipeline_pickle_roundtrip_witness :
    pickleLoad exRegistry (pickleDump exPipeline) = some exPipeline ∧
      pipelineEq ((pickleLoad exRegistry (pickleDump exPipeline)).getD exPipeline)
        exPipeline = true ∧
      fitCG (((pickleLoad exRegistry (pickleDump exPipeline)).getD exPipeline).plGraph)
        [1] 3 = fitCG exPipeline.plGraph [1] 3 :=
  pipeline_pickle_roundtrip (by
    intro node hn
    simp only [exPipeline, trFit, trInst, trGraph, mkGraph, trSpec, List.map_cons,
      List.map_nil, mkNode] at hn
    rcases List.mem_cons.mp hn with heq | hn2
    · subst heq; rfl
    · rcases List.mem_cons.mp hn2 with heq | hn3
      · subst heq; rfl
      · cases hn3)

end RayML
